import Mathlib

/-!
Verification of the equivalence-testing core in `templates/conftest_base.py`:
the tolerance comparator (`assert_close`, `assert_eigenvector_equivalent`),
the verification-level tracker (`VerificationTracker`) and the adversarial
input generator (`AdversarialAttacker`).

Modelling conventions.
* Numerical values are embedded as exact rationals (complex values as pairs
  of rationals); the development reasons about the exact-arithmetic meaning
  of the Python code, not about IEEE rounding.
* `torch`/`numpy` calls are external library calls; each is modelled by its
  documented contract (see the doc comment on each definition).  The seeded
  pseudo-random generator `np.random.default_rng(seed)` is modelled as a
  deterministic stream of raw draws indexed by seed and position.
* Python exceptions are modelled with `Except`.
-/

namespace Conftest

/-- A complex scalar with exact rational components, standing for one
`complex128` element of a tensor. -/
structure Qc where
  re : ℚ
  im : ℚ
deriving DecidableEq

/-- The zero scalar. -/
def Qc.zero : Qc := ⟨0, 0⟩

/-- Complex subtraction. -/
def Qc.sub (a b : Qc) : Qc := ⟨a.re - b.re, a.im - b.im⟩

/-- Complex multiplication. -/
def Qc.mul (a b : Qc) : Qc := ⟨a.re * b.re - a.im * b.im, a.re * b.im + a.im * b.re⟩

/-- Complex conjugate. -/
def Qc.conj (a : Qc) : Qc := ⟨a.re, -a.im⟩

/-- Squared modulus `|z|^2`; always a rational, so `|z| = Real.sqrt z.normSq`. -/
def Qc.normSq (a : Qc) : ℚ := a.re * a.re + a.im * a.im

/-- Division of a complex scalar by a rational scalar (componentwise). -/
def Qc.divQ (a : Qc) (q : ℚ) : Qc := ⟨a.re / q, a.im / q⟩

theorem Qc.normSq_nonneg (a : Qc) : 0 ≤ a.normSq := by
  have h1 : 0 ≤ a.re * a.re := mul_self_nonneg _
  have h2 : 0 ≤ a.im * a.im := mul_self_nonneg _
  unfold Qc.normSq
  linarith

theorem Qc.sub_self_normSq (a : Qc) : (a.sub a).normSq = 0 := by
  simp [Qc.sub, Qc.normSq]

/-- Decision procedure for `u ≤ w * Real.sqrt y` with rational `u w y`
(`y ≥ 0`), by sign analysis and squaring.  Used to decide the float
comparison `|a - b| <= atol + rtol * |b|` exactly. -/
def mulSqrtLe (u w y : ℚ) : Bool :=
  if u ≤ 0 then
    (if 0 ≤ w then true else decide (w * w * y ≤ u * u))
  else
    (if w ≤ 0 then false else decide (u * u ≤ w * w * y))

theorem mulSqrtLe_iff (u w y : ℚ) (hy : (0 : ℚ) ≤ y) :
    mulSqrtLe u w y = true ↔ (u : ℝ) ≤ (w : ℝ) * Real.sqrt (y : ℝ) := by
  have hyR : (0 : ℝ) ≤ (y : ℝ) := by exact_mod_cast hy
  have hs : (0 : ℝ) ≤ Real.sqrt (y : ℝ) := Real.sqrt_nonneg _
  have hss : Real.sqrt (y : ℝ) * Real.sqrt (y : ℝ) = (y : ℝ) := Real.mul_self_sqrt hyR
  unfold mulSqrtLe
  by_cases hu : u ≤ 0
  · rw [if_pos hu]
    by_cases hw : (0 : ℚ) ≤ w
    · rw [if_pos hw]
      simp only [true_iff]
      have huR : (u : ℝ) ≤ 0 := by exact_mod_cast hu
      have hwR : (0 : ℝ) ≤ (w : ℝ) := by exact_mod_cast hw
      exact le_trans huR (mul_nonneg hwR hs)
    · rw [if_neg hw]
      rw [decide_eq_true_eq]
      have hwR : (w : ℝ) < 0 := by
        have : ¬ ((0 : ℝ) ≤ (w : ℝ)) := by exact_mod_cast hw
        linarith
      have huR : (u : ℝ) ≤ 0 := by exact_mod_cast hu
      have key : (u : ℝ) ≤ (w : ℝ) * Real.sqrt (y : ℝ) ↔
          (-(w : ℝ)) * Real.sqrt (y : ℝ) ≤ -(u : ℝ) := by
        constructor
        · intro h; linarith
        · intro h; linarith
      rw [key]
      have h1 : (0 : ℝ) ≤ (-(w : ℝ)) * Real.sqrt (y : ℝ) :=
        mul_nonneg (by linarith) hs
      have h2 : (0 : ℝ) ≤ -(u : ℝ) := by linarith
      rw [mul_self_le_mul_self_iff h1 h2]
      have expand : (-(w : ℝ)) * Real.sqrt (y : ℝ) * ((-(w : ℝ)) * Real.sqrt (y : ℝ)) =
          (w : ℝ) * (w : ℝ) * (y : ℝ) := by
        have : (-(w : ℝ)) * Real.sqrt (y : ℝ) * ((-(w : ℝ)) * Real.sqrt (y : ℝ)) =
            (w : ℝ) * (w : ℝ) * (Real.sqrt (y : ℝ) * Real.sqrt (y : ℝ)) := by ring
        rw [this, hss]
      rw [expand]
      have hr2 : (-(u : ℝ)) * (-(u : ℝ)) = (u : ℝ) * (u : ℝ) := by ring
      rw [hr2]
      constructor
      · intro h
        exact_mod_cast h
      · intro h
        exact_mod_cast h
  · rw [if_neg hu]
    have huR : (0 : ℝ) < (u : ℝ) := by
      have : ¬ ((u : ℝ) ≤ 0) := by exact_mod_cast hu
      linarith
    by_cases hw : w ≤ 0
    · rw [if_pos hw]
      simp only [Bool.false_eq_true, false_iff, not_le]
      have hwR : (w : ℝ) ≤ 0 := by exact_mod_cast hw
      have : (w : ℝ) * Real.sqrt (y : ℝ) ≤ 0 := mul_nonpos_of_nonpos_of_nonneg hwR hs
      linarith
    · rw [if_neg hw]
      rw [decide_eq_true_eq]
      have hwR : (0 : ℝ) < (w : ℝ) := by
        have : ¬ ((w : ℝ) ≤ 0) := by exact_mod_cast hw
        linarith
      have h1 : (0 : ℝ) ≤ (u : ℝ) := le_of_lt huR
      have h2 : (0 : ℝ) ≤ (w : ℝ) * Real.sqrt (y : ℝ) := mul_nonneg (le_of_lt hwR) hs
      rw [mul_self_le_mul_self_iff h1 h2]
      have expand : (w : ℝ) * Real.sqrt (y : ℝ) * ((w : ℝ) * Real.sqrt (y : ℝ)) =
          (w : ℝ) * (w : ℝ) * (y : ℝ) := by
        have : (w : ℝ) * Real.sqrt (y : ℝ) * ((w : ℝ) * Real.sqrt (y : ℝ)) =
            (w : ℝ) * (w : ℝ) * (Real.sqrt (y : ℝ) * Real.sqrt (y : ℝ)) := by ring
        rw [this, hss]
      rw [expand]
      constructor
      · intro h
        exact_mod_cast h
      · intro h
        exact_mod_cast h

/-- Decision procedure for `Real.sqrt x ≤ c + r * Real.sqrt y` with rational
`x c r y` (`x, y ≥ 0`): accept iff the right-hand side is nonnegative and the
squared inequality holds. -/
def sqrtLeB (x c r y : ℚ) : Bool :=
  if mulSqrtLe (-c) r y then mulSqrtLe (x - c * c - r * r * y) (2 * c * r) y else false

theorem sqrtLeB_iff (x c r y : ℚ) (hx : (0 : ℚ) ≤ x) (hy : (0 : ℚ) ≤ y) :
    sqrtLeB x c r y = true ↔
      Real.sqrt (x : ℝ) ≤ (c : ℝ) + (r : ℝ) * Real.sqrt (y : ℝ) := by
  have hyR : (0 : ℝ) ≤ (y : ℝ) := by exact_mod_cast hy
  have hxR : (0 : ℝ) ≤ (x : ℝ) := by exact_mod_cast hx
  have hss : Real.sqrt (y : ℝ) * Real.sqrt (y : ℝ) = (y : ℝ) := Real.mul_self_sqrt hyR
  unfold sqrtLeB
  by_cases hsign : mulSqrtLe (-c) r y = true
  · rw [if_pos hsign]
    have hR : ((-c : ℚ) : ℝ) ≤ (r : ℝ) * Real.sqrt (y : ℝ) := (mulSqrtLe_iff _ _ _ hy).mp hsign
    have hRHS : (0 : ℝ) ≤ (c : ℝ) + (r : ℝ) * Real.sqrt (y : ℝ) := by
      push_cast at hR
      linarith
    rw [Real.sqrt_le_left hRHS]
    have expand : ((c : ℝ) + (r : ℝ) * Real.sqrt (y : ℝ)) ^ 2 =
        (c : ℝ) * (c : ℝ) + (r : ℝ) * (r : ℝ) * (y : ℝ) +
          (2 * (c : ℝ) * (r : ℝ)) * Real.sqrt (y : ℝ) := by
      have : ((c : ℝ) + (r : ℝ) * Real.sqrt (y : ℝ)) ^ 2 =
          (c : ℝ) * (c : ℝ) + (r : ℝ) * (r : ℝ) * (Real.sqrt (y : ℝ) * Real.sqrt (y : ℝ)) +
            (2 * (c : ℝ) * (r : ℝ)) * Real.sqrt (y : ℝ) := by ring
      rw [this, hss]
    rw [expand, mulSqrtLe_iff _ _ _ hy]
    constructor
    · intro h
      push_cast at h
      linarith
    · intro h
      push_cast
      linarith
  · rw [if_neg hsign]
    simp only [Bool.false_eq_true, false_iff, not_le]
    have hR : ¬ (((-c : ℚ) : ℝ) ≤ (r : ℝ) * Real.sqrt (y : ℝ)) := by
      intro hcon
      exact hsign ((mulSqrtLe_iff _ _ _ hy).mpr hcon)
    push_cast at hR
    have hneg : (c : ℝ) + (r : ℝ) * Real.sqrt (y : ℝ) < 0 := by linarith
    have : (0 : ℝ) ≤ Real.sqrt (x : ℝ) := Real.sqrt_nonneg _
    linarith

theorem mulSqrtLe_true_of_nonpos (u w y : ℚ) (hu : u ≤ 0) (hw : 0 ≤ w) :
    mulSqrtLe u w y = true := by
  unfold mulSqrtLe
  rw [if_pos hu, if_pos hw]

theorem mulSqrtLe_false_of_pos (u w y : ℚ) (hu : 0 < u) (hsq : ¬ (u * u ≤ w * w * y)) :
    mulSqrtLe u w y = false := by
  unfold mulSqrtLe
  rw [if_neg (not_le.mpr hu)]
  by_cases hw : w ≤ 0
  · rw [if_pos hw]
  · rw [if_neg hw]
    exact decide_eq_false hsq

theorem sqrtLeB_false_of (x c r y : ℚ) (h1 : mulSqrtLe (-c) r y = true)
    (h2 : mulSqrtLe (x - c * c - r * r * y) (2 * c * r) y = false) :
    sqrtLeB x c r y = false := by
  unfold sqrtLeB
  rw [if_pos h1]
  exact h2

/-- The elementwise test of `torch.isclose`/`torch.allclose`:
`|a - b| <= atol + rtol * |b|` (with `|.|` the complex modulus), decided
exactly via `sqrtLeB` since `|z| = Real.sqrt z.normSq`. -/
def closeElem (a b : Qc) (rtol atol : ℚ) : Bool :=
  sqrtLeB ((a.sub b).normSq) atol rtol b.normSq

/-- Sanity: `closeElem` is exactly the documented comparison rule of
`torch.allclose` read in exact real arithmetic. -/
theorem closeElem_iff (a b : Qc) (rtol atol : ℚ) :
    closeElem a b rtol atol = true ↔
      Real.sqrt (((a.sub b).normSq : ℚ) : ℝ) ≤
        (atol : ℝ) + (rtol : ℝ) * Real.sqrt ((b.normSq : ℚ) : ℝ) :=
  sqrtLeB_iff _ _ _ _ (Qc.normSq_nonneg _) (Qc.normSq_nonneg _)

theorem closeElem_self (x : Qc) (rtol atol : ℚ) (hr : 0 ≤ rtol) (ha : 0 ≤ atol) :
    closeElem x x rtol atol = true := by
  unfold closeElem
  rw [Qc.sub_self_normSq]
  unfold sqrtLeB
  have hy : (0 : ℚ) ≤ x.normSq := Qc.normSq_nonneg x
  have h1 : mulSqrtLe (-atol) rtol x.normSq = true := by
    unfold mulSqrtLe
    rw [if_pos (by linarith : -atol ≤ 0), if_pos hr]
  rw [if_pos h1]
  unfold mulSqrtLe
  have hu : 0 - atol * atol - rtol * rtol * x.normSq ≤ 0 := by
    have h2 : 0 ≤ atol * atol := mul_self_nonneg _
    have h3 : 0 ≤ rtol * rtol * x.normSq := mul_nonneg (mul_self_nonneg _) hy
    linarith
  rw [if_pos hu, if_pos (by positivity : (0 : ℚ) ≤ 2 * atol * rtol)]

/-- A tensor (`torch.Tensor` of dtype `complex128` on cpu): a shape and the
flat row-major element list.  `.detach().cpu()` and `torch.from_numpy` are
identity operations at this level of modelling. -/
structure Artifact where
  shape : List ℕ
  data : List Qc
deriving DecidableEq

/-- Broadcast of one dimension pair: equal sizes, or a size-1 dimension
stretched to the other size (the numpy/torch broadcasting rule). -/
def bdim (d1 d2 : ℕ) : Option ℕ :=
  if d1 = d2 then some d1 else if d1 = 1 then some d2 else if d2 = 1 then some d1 else none

/-- Left-pad a shape with size-1 dimensions to length `n` (shapes align from
the trailing dimension in broadcasting). -/
def padShape (n : ℕ) (s : List ℕ) : List ℕ :=
  List.replicate (n - s.length) 1 ++ s

/-- The broadcast shape of two shapes, `none` if they are not broadcastable
(in which case torch raises a RuntimeError). -/
def broadcastShapes (s1 s2 : List ℕ) : Option (List ℕ) :=
  let n := max s1.length s2.length
  ((padShape n s1).zip (padShape n s2)).mapM (fun p => bdim p.1 p.2)

/-- All multi-indices of a shape, in row-major order. -/
def allIdx : List ℕ → List (List ℕ)
  | [] => [[]]
  | d :: ds => (List.range d).flatMap (fun i => (allIdx ds).map (i :: ·))

/-- Flat row-major position of a multi-index within a shape. -/
def flatIdx : List ℕ → List ℕ → ℕ
  | _ :: ds, i :: rest => i * ds.prod + flatIdx ds rest
  | _, _ => 0

/-- Element of artifact `a` at multi-index `idx` of the broadcast shape `bs`:
leading broadcast dimensions are dropped and size-1 dimensions of `a` are
read at coordinate 0 (the stride-0 stretching torch uses). -/
def elemAt (a : Artifact) (bs : List ℕ) (idx : List ℕ) : Qc :=
  let tail := idx.drop (bs.length - a.shape.length)
  let coords := (a.shape.zip tail).map (fun p => if p.1 = 1 then 0 else p.2)
  a.data.getD (flatIdx a.shape coords) Qc.zero

/-- Failure kinds of the comparator.  `shapeMismatch` is the RuntimeError
torch raises when the two shapes are not broadcastable; `valueMismatch` is
the AssertionError raised by `assert_close` (its message payload — max diff
and tolerances — is diagnostic text, not modelled); `zeroNorm` is the
distinct zero-norm failure kind named by the specification. -/
inductive CheckErr where
  | shapeMismatch
  | valueMismatch
  | zeroNorm
deriving DecidableEq

/-- `torch.allclose(actual, expected, rtol, atol)`: `none` models the
RuntimeError on non-broadcastable shapes, otherwise the conjunction of the
elementwise tests over the broadcast shape. -/
def allclose (a b : Artifact) (rtol atol : ℚ) : Option Bool :=
  match broadcastShapes a.shape b.shape with
  | none => none
  | some bs =>
      some ((allIdx bs).all (fun idx => closeElem (elemAt a bs idx) (elemAt b bs idx) rtol atol))

/-- Default tolerances of `conftest_base.py` (lines 25-26). -/
def DEFAULT_RTOL : ℚ := 1 / 10 ^ 10

/-- Default absolute tolerance (line 26). -/
def DEFAULT_ATOL : ℚ := 1 / 10 ^ 12

/-- Embeds `assert_close` (lines 61-81): convert/detach are identities here;
if `torch.allclose` holds, return; otherwise raise AssertionError
(`valueMismatch`).  A RuntimeError from non-broadcastable shapes inside
`torch.allclose` propagates as `shapeMismatch`. -/
def assert_close (actual expected : Artifact) (rtol atol : ℚ) : Except CheckErr Unit :=
  match allclose actual expected rtol atol with
  | none => .error .shapeMismatch
  | some true => .ok ()
  | some false => .error .valueMismatch

/-- Squared 2-norm of a flattened vector: `‖v‖² = Σ |v_i|²`, a rational.
`torch.linalg.norm v = Real.sqrt (vnormSq v)`. -/
def vnormSq (v : List Qc) : ℚ :=
  (v.map Qc.normSq).sum

/-- Embeds lines 94-103 of `assert_eigenvector_equivalent`: flatten, divide
by the 2-norm, and take the outer product with the conjugate.  In exact
arithmetic `outer (v / ‖v‖) (conj (v / ‖v‖)) i j = v_i * conj (v_j) / ‖v‖²`,
and `‖v‖²` is rational, so the projector of the normalized vector is computed
in that fused form.  The code has no guard on `‖v‖ = 0`: there the division
is still performed (rational division by zero yields 0 here; IEEE yields
NaN entries). -/
def normProjector (v : List Qc) : Artifact :=
  ⟨[v.length, v.length],
   (v.map (fun vi => v.map (fun vj => (vi.mul vj.conj).divQ (vnormSq v)))).flatten⟩

/-- Embeds `assert_eigenvector_equivalent` (lines 84-105): compare the
projectors of the normalized flattened vectors with `assert_close`. -/
def assert_eigenvector_equivalent (va vb : Artifact) (rtol atol : ℚ) : Except CheckErr Unit :=
  assert_close (normProjector va.data) (normProjector vb.data) rtol atol

/-- Modelled from the spec: the `PhaseInvariant` gauge check as the
specification words it — normalization "fails with `ZeroNorm` if either norm
is exactly zero", then projectors are formed and compared with `close`.
This definition exists only to be compared against the code's
`assert_eigenvector_equivalent`. -/
def specPhaseInvariant (va vb : Artifact) (rtol atol : ℚ) : Except CheckErr Unit :=
  if vnormSq va.data = 0 ∨ vnormSq vb.data = 0 then .error .zeroNorm
  else assert_close (normProjector va.data) (normProjector vb.data) rtol atol

/-- One history entry of `VerificationTracker` (lines 218-224).  The
free-form `details` dict and the wall-clock `timestamp` string are external
payloads with no bearing on the tracked level and are not modelled. -/
structure HistEntry where
  level : String
  challenger : String
  passed : Bool
deriving DecidableEq

/-- The per-target record: the appended history plus the optional
`current_level` key (absent until some call passes). -/
structure TargetRec where
  history : List HistEntry
  current_level : Option String
deriving DecidableEq

/-- `VerificationTracker.results`: a dict from target name to its record. -/
def Tracker := String → Option TargetRec

/-- A fresh tracker: `self.results = {}` (line 204). -/
def emptyTracker : Tracker := fun _ => none

/-- Embeds `VerificationTracker.record` (lines 206-227): create the target's
record if absent, append the history entry, and set `current_level` to
`level` exactly when `passed` is true. -/
def record (t : Tracker) (target level challenger : String) (passed : Bool) : Tracker :=
  fun x =>
    if x = target then
      let r := (t target).getD ⟨[], none⟩
      some ⟨r.history ++ [⟨level, challenger, passed⟩],
            if passed then some level else r.current_level⟩
    else t x

/-- Embeds `VerificationTracker.get_level` (lines 229-231):
`self.results.get(target, \x7b\x7d).get("current_level", "L0")`. -/
def get_level (t : Tracker) (target : String) : String :=
  ((t target).bind (fun r => r.current_level)).getD "L0"

/-- One `record` call with its four data arguments. -/
structure RecCall where
  target : String
  level : String
  challenger : String
  passed : Bool
deriving DecidableEq

/-- Replay a sequence of `record` calls against a tracker. -/
def runTracker (t : Tracker) (cs : List RecCall) : Tracker :=
  cs.foldl (fun acc c => record acc c.target c.level c.challenger c.passed) t

/-- The level of the most recent passing call for `target` in a call
sequence, if any: the reference value `get_level` is compared against. -/
def lastPassingLevel (cs : List RecCall) (target : String) : Option String :=
  cs.foldl
    (fun acc c => if c.target = target ∧ c.passed = true then some c.level else acc) none

theorem get_level_record (t : Tracker) (target level challenger : String)
    (passed : Bool) (x : String) :
    get_level (record t target level challenger passed) x =
      if x = target ∧ passed = true then level else get_level t x := by
  unfold get_level record
  by_cases hx : x = target
  · rw [if_pos hx]
    cases passed with
    | true =>
        rw [if_pos ⟨hx, rfl⟩]
        simp
    | false =>
        rw [if_neg (by simp)]
        subst hx
        cases ht : t x with
        | none => simp [ht]
        | some r => simp [ht]
  · rw [if_neg hx, if_neg (by intro hc; exact hx hc.1)]

theorem runTracker_append_singleton (t : Tracker) (cs : List RecCall) (c : RecCall) :
    runTracker t (cs ++ [c]) =
      record (runTracker t cs) c.target c.level c.challenger c.passed := by
  unfold runTracker
  rw [List.foldl_append]
  rfl

theorem lastPassingLevel_append_singleton (cs : List RecCall) (c : RecCall)
    (target : String) :
    lastPassingLevel (cs ++ [c]) target =
      if c.target = target ∧ c.passed = true then some c.level
      else lastPassingLevel cs target := by
  unfold lastPassingLevel
  rw [List.foldl_append]
  rfl

theorem get_level_runTracker (t : Tracker) (cs : List RecCall) (target : String) :
    get_level (runTracker t cs) target =
      (lastPassingLevel cs target).getD (get_level t target) := by
  induction cs using List.reverseRecOn with
  | nil => rfl
  | append_singleton cs c ih =>
      rw [runTracker_append_singleton, get_level_record,
        lastPassingLevel_append_singleton]
      by_cases hc : c.target = target ∧ c.passed = true
      · rw [if_pos hc, if_pos ⟨hc.1.symm, hc.2⟩]
        rfl
      · have hc2 : ¬ (target = c.target ∧ c.passed = true) := by
          intro h
          exact hc ⟨h.1.symm, h.2⟩
        rw [if_neg hc, if_neg hc2, ih]

/-- The seeded pseudo-random source `np.random.default_rng(seed)`, modelled
as a deterministic stream of raw rational draws plus the current position.
The stream function is the (deterministic) composition of the PCG64 bit
generator with the distribution transforms; one distribution value consumes
one stream position. -/
structure Rng where
  gen : ℕ → ℚ
  pos : ℕ

/-- Take the next raw draw and advance the stream position. -/
def Rng.next (r : Rng) : ℚ × Rng :=
  (r.gen r.pos, ⟨r.gen, r.pos + 1⟩)

/-- Modelled external `rng.standard_normal(shape)` flattened: `n` successive
stream draws (numpy fills the array in row-major order from successive
generator output). -/
def standardNormal : ℕ → Rng → List ℚ × Rng
  | 0, r => ([], r)
  | n + 1, r =>
      let d := r.next
      let rest := standardNormal n d.2
      (d.1 :: rest.1, rest.2)

/-- Modelled external `rng.choice(cs, size=n)` flattened: each element is a
member of `cs` selected by one stream draw. -/
def choiceFrom (cs : List ℚ) : ℕ → Rng → List ℚ × Rng
  | 0, r => ([], r)
  | n + 1, r =>
      let d := r.next
      let rest := choiceFrom cs n d.2
      (cs.getD (d.1.num.toNat % cs.length) 0 :: rest.1, rest.2)

/-- Modelled external `rng.choice(total, size=n, replace=False)`: `n`
distinct flat indices below `total`, derived deterministically from one
stream draw (a rotation of `0, ..., total-1`; the documented contract —
distinct in-range indices, deterministic in the generator state — is what
the code relies on).  numpy raises ValueError when `n > total`; the caller
(`rtData`) models that guard. -/
def choiceNoReplace (total n : ℕ) (r : Rng) : List ℕ × Rng :=
  let d := r.next
  let start := d.1.num.toNat % total
  ((List.range n).map (fun i => (start + i) % total), d.2)

/-- The fixed value set of the `boundary` strategy (line 272). -/
def boundaryChoices : List ℚ :=
  [1 / 10 ^ 15, 10 ^ 15, 0, 1, -1]

/-- Modelled external `np.put(data, indices, vals)`: assign
`data.flat[indices[k]] = vals[k]` (real values cast into the complex
array). -/
def putFlat (d : List Qc) (idxs : List ℕ) (vals : List ℚ) : List Qc :=
  (idxs.zip vals).foldl (fun acc p => acc.set p.1 ⟨p.2, 0⟩) d

/-- The square-matrix test of line 282: `len(shape) == 2 and
shape[0] == shape[1]`. -/
def isSquare2 : List ℕ → Bool
  | [a, b] => a == b
  | _ => false

/-- The data-generation part of `AdversarialAttacker.random_tensor`
(lines 268-292), threading the random source.  `ls n` stands for the
external `np.logspace(-15, 0, n)` (its values are irrational in general, so
the model abstracts them as a parameter; no claim depends on them).
`int(np.prod(shape) * 0.1)` truncates toward zero, which for the relevant
sizes equals `total / 10` in natural division (the IEEE product
`total * 0.1` never rounds below the exact value's floor).  numpy raises
ValueError (`Except.error ()`) when `choice` is asked for more distinct
indices than exist. -/
def rtData (ls : ℕ → List ℚ) (shape : List ℕ) (strategy : String) (r : Rng) :
    Except Unit Artifact × Rng :=
  let total := shape.prod
  if strategy = "normal" then
    let re := standardNormal total r
    let im := standardNormal total re.2
    (.ok ⟨shape, List.zipWith (fun a b => ⟨a, b⟩) re.1 im.1⟩, im.2)
  else if strategy = "boundary" then
    let re := choiceFrom boundaryChoices total r
    let im := choiceFrom boundaryChoices total re.2
    (.ok ⟨shape, List.zipWith (fun a b => ⟨a, b⟩) re.1 im.1⟩, im.2)
  else if strategy = "sparse" then
    let nnz := max 1 (total / 10)
    if total < nnz then (.error (), r)
    else
      let idxs := choiceNoReplace total nnz r
      let vals := standardNormal nnz idxs.2
      (.ok ⟨shape, putFlat (List.replicate total Qc.zero) idxs.1 vals.1⟩, vals.2)
  else if strategy = "ill_conditioned" then
    if isSquare2 shape then
      let n := shape.headD 0
      let u := standardNormal (n * n) r
      let s := ls n
      (.ok ⟨shape,
        (List.range n).flatMap (fun i => (List.range n).map (fun j =>
          ⟨((List.range n).map
              (fun k => u.1.getD (i * n + k) 0 * s.getD k 0 * u.1.getD (j * n + k) 0)).sum,
           0⟩))⟩, u.2)
    else
      let re := standardNormal total r
      (.ok ⟨shape, re.1.map (fun a => ⟨a, 0⟩)⟩, re.2)
  else
    let re := standardNormal total r
    (.ok ⟨shape, re.1.map (fun a => ⟨a, 0⟩)⟩, re.2)

/-- The mutable state of an `AdversarialAttacker` session (lines 253-257). -/
structure Attacker where
  rng : Rng
  attempts : ℕ
  failures : ℕ
  near_misses : ℕ

/-- `AdversarialAttacker.__init__(seed)`: seed the random source, zero the
three counters.  `gen` is the (fixed, deterministic) numpy stream function
indexed by seed. -/
def mkAttacker (gen : ℕ → ℕ → ℚ) (seed : ℕ) : Attacker :=
  ⟨⟨gen seed, 0⟩, 0, 0, 0⟩

/-- Embeds `AdversarialAttacker.random_tensor` (lines 259-292): increment
`attempts` first (so even the ValueError path has counted the attempt),
then generate data according to the strategy string. -/
def random_tensor (ls : ℕ → List ℚ) (s : Attacker) (shape : List ℕ) (strategy : String) :
    Except Unit Artifact × Attacker :=
  let res := rtData ls shape strategy s.rng
  (res.1, { s with attempts := s.attempts + 1, rng := res.2 })

/-- Embeds `record_failure` (lines 294-296); the `details` string is unused
by the code. -/
def record_failure (s : Attacker) : Attacker :=
  { s with failures := s.failures + 1 }

/-- Embeds `record_near_miss` (lines 298-300). -/
def record_near_miss (s : Attacker) : Attacker :=
  { s with near_misses := s.near_misses + 1 }

/-- The report dict of `AdversarialAttacker.report` (lines 302-310), with
its exact key set. -/
structure AReport where
  total_attempts : ℕ
  failures : ℕ
  near_misses : ℕ
  success_rate : ℚ
  conclusion : String
deriving DecidableEq

/-- Embeds `report` (lines 302-310).  Python's `/` is exact division after
the integer subtraction, hence the rational value; the method only reads
the counters (purity is visible in the type: no `Attacker` is returned). -/
def report (s : Attacker) : AReport :=
  ⟨s.attempts, s.failures, s.near_misses,
   ((s.attempts : ℚ) - (s.failures : ℚ)) / ((max 1 s.attempts : ℕ) : ℚ),
   if s.failures = 0 then "PASS" else "FAIL"⟩

/-- One call of an adversarial session: `generate` (= `random_tensor`),
`record_failure` or `record_near_miss`. -/
inductive ACall where
  | genT (shape : List ℕ) (strategy : String)
  | recFail
  | recNearMiss

/-- Apply one session call to the session state. -/
def stepA (ls : ℕ → List ℚ) (s : Attacker) (c : ACall) : Attacker :=
  match c with
  | .genT sh st => (random_tensor ls s sh st).2
  | .recFail => record_failure s
  | .recNearMiss => record_near_miss s

/-- Replay a call sequence against a session state. -/
def runA (ls : ℕ → List ℚ) (s : Attacker) (cs : List ACall) : Attacker :=
  cs.foldl (stepA ls) s

/-- Number of `generate` calls in a sequence. -/
def genCount (cs : List ACall) : ℕ :=
  cs.countP (fun c => match c with | .genT _ _ => true | _ => false)

/-- Number of `record_failure` calls in a sequence. -/
def failCount (cs : List ACall) : ℕ :=
  cs.countP (fun c => match c with | .recFail => true | _ => false)

/-- Number of `record_near_miss` calls in a sequence. -/
def nmCount (cs : List ACall) : ℕ :=
  cs.countP (fun c => match c with | .recNearMiss => true | _ => false)

/-- Number of nonzero entries of a flat data list. -/
def countNZ (l : List Qc) : ℕ :=
  l.countP (fun q => q != Qc.zero)

/-- The artifact outputs of a sequence of `generate` calls, in order. -/
def genOutputs (ls : ℕ → List ℚ) : List (List ℕ × String) → Attacker → List (Except Unit Artifact)
  | [], _ => []
  | c :: cs, s =>
      let res := random_tensor ls s c.1 c.2
      res.1 :: genOutputs ls cs res.2

theorem zip_self_mapM_bdim (s : List ℕ) :
    (s.zip s).mapM (fun p => bdim p.1 p.2) = some s := by
  induction s with
  | nil => rfl
  | cons d s ih =>
      simp only [List.zip_cons_cons, List.mapM_cons, ih]
      simp [bdim]

theorem broadcastShapes_self (s : List ℕ) : broadcastShapes s s = some s := by
  unfold broadcastShapes padShape
  simp only [Nat.max_self, Nat.sub_self, List.replicate_zero, List.nil_append]
  exact zip_self_mapM_bdim s

theorem allclose_self (a : Artifact) (rtol atol : ℚ) (hr : 0 ≤ rtol) (ha : 0 ≤ atol) :
    allclose a a rtol atol = some true := by
  unfold allclose
  rw [broadcastShapes_self]
  have hall : ((allIdx a.shape).all
      (fun idx => closeElem (elemAt a a.shape idx) (elemAt a a.shape idx) rtol atol)) = true := by
    rw [List.all_eq_true]
    intro idx _
    exact closeElem_self _ rtol atol hr ha
  show some ((allIdx a.shape).all
    (fun idx => closeElem (elemAt a a.shape idx) (elemAt a a.shape idx) rtol atol)) = some true
  rw [hall]

theorem assert_close_ne_zeroNorm (a b : Artifact) (rtol atol : ℚ) :
    assert_close a b rtol atol ≠ Except.error CheckErr.zeroNorm := by
  unfold assert_close
  cases h : allclose a b rtol atol with
  | none => simp
  | some v => cases v <;> simp

theorem standardNormal_length (n : ℕ) (r : Rng) : (standardNormal n r).1.length = n := by
  induction n generalizing r with
  | zero => rfl
  | succ n ih => simp [standardNormal, ih]

theorem standardNormal_gen (n : ℕ) (r : Rng) : (standardNormal n r).2.gen = r.gen := by
  induction n generalizing r with
  | zero => rfl
  | succ n ih => simp [standardNormal, Rng.next, ih]

theorem standardNormal_mem (n : ℕ) (r : Rng) :
    ∀ v ∈ (standardNormal n r).1, ∃ k, v = r.gen k := by
  induction n generalizing r with
  | zero => intro v hv; cases hv
  | succ n ih =>
      intro v hv
      simp only [standardNormal, List.mem_cons] at hv
      rcases hv with h | h
      · exact ⟨r.pos, h⟩
      · exact ih ⟨r.gen, r.pos + 1⟩ v h

theorem choiceNoReplace_spec (total n : ℕ) (r : Rng) (hn : n ≤ total) (ht : 0 < total) :
    (choiceNoReplace total n r).1.length = n ∧
    (∀ i ∈ (choiceNoReplace total n r).1, i < total) ∧
    (choiceNoReplace total n r).1.Nodup := by
  unfold choiceNoReplace
  refine ⟨by simp, ?_, ?_⟩
  · intro i hi
    simp only [List.mem_map] at hi
    rcases hi with ⟨j, _, hj⟩
    rw [← hj]
    exact Nat.mod_lt _ ht
  · apply List.Nodup.map_on
    · intro x hx y hy hxy
      rw [List.mem_range] at hx hy
      have hx2 : x < total := lt_of_lt_of_le hx hn
      have hy2 : y < total := lt_of_lt_of_le hy hn
      have hmod : x ≡ y [MOD total] :=
        Nat.ModEq.add_left_cancel' (r.next.1.num.toNat % total) hxy
      unfold Nat.ModEq at hmod
      rw [Nat.mod_eq_of_lt hx2, Nat.mod_eq_of_lt hy2] at hmod
      exact hmod
    · exact List.nodup_range n

theorem countP_set_of_false (p : Qc → Bool) (d : List Qc) (i : ℕ) (a : Qc)
    (hi : i < d.length) (hd : p (d.get ⟨i, hi⟩) = false) :
    (d.set i a).countP p = d.countP p + (if p a then 1 else 0) := by
  induction d generalizing i with
  | nil => cases hi
  | cons x xs ih =>
      cases i with
      | zero =>
          simp only [List.set_cons_zero, List.countP_cons]
          simp only [List.get] at hd
          rw [hd]
          simp [Nat.add_comm]
      | succ i =>
          have hi2 : i < xs.length := Nat.lt_of_succ_lt_succ hi
          simp only [List.set_cons_succ, List.countP_cons]
          rw [ih i hi2 hd]
          omega

theorem countNZ_putFlat (idxs : List ℕ) (vals : List ℚ) (d : List Qc)
    (hlen : idxs.length = vals.length) (hnd : idxs.Nodup)
    (hbound : ∀ i ∈ idxs, i < d.length)
    (hzero : ∀ (i : ℕ) (hi : i < d.length), i ∈ idxs → d.get ⟨i, hi⟩ = Qc.zero)
    (hvals : ∀ v ∈ vals, v ≠ 0) :
    countNZ (putFlat d idxs vals) = countNZ d + idxs.length := by
  induction idxs generalizing vals d with
  | nil => simp [putFlat]
  | cons i idxs ih =>
      cases vals with
      | nil => cases hlen
      | cons v vs =>
          have hi : i < d.length := hbound i (List.mem_cons_self i idxs)
          have step : putFlat d (i :: idxs) (v :: vs) = putFlat (d.set i ⟨v, 0⟩) idxs vs := rfl
          have hvne : v ≠ 0 := hvals v (List.mem_cons_self v vs)
          rw [step, ih vs (d.set i ⟨v, 0⟩)]
          · have hset : countNZ (d.set i ⟨v, 0⟩) = countNZ d + 1 := by
              unfold countNZ
              rw [countP_set_of_false _ d i ⟨v, 0⟩ hi]
              · rw [if_pos]
                simp only [bne_iff_ne, ne_eq, Qc.zero]
                intro hc
                exact hvne (congrArg Qc.re hc)
              · rw [hzero i hi (List.mem_cons_self i idxs)]
                simp
            rw [hset]
            simp only [List.length_cons]
            omega
          · exact Nat.succ_injective hlen
          · exact hnd.of_cons
          · intro j hj
            rw [List.length_set]
            exact hbound j (List.mem_cons_of_mem i hj)
          · intro j hj hjmem
            have hji : j ≠ i := by
              intro hc
              rw [hc] at hjmem
              exact (List.nodup_cons.mp hnd).1 hjmem
            have hjd : j < d.length := by
              rw [List.length_set] at hj
              exact hj
            have : (d.set i ⟨v, 0⟩).get ⟨j, hj⟩ = d.get ⟨j, hjd⟩ := by
              simp only [List.get_eq_getElem]
              exact List.getElem_set_ne (fun hc => hji hc.symm) hj
            rw [this]
            exact hzero j hjd (List.mem_cons_of_mem i hjmem)
          · intro w hw
            exact hvals w (List.mem_cons_of_mem v hw)

theorem countNZ_replicate_zero (n : ℕ) : countNZ (List.replicate n Qc.zero) = 0 := by
  unfold countNZ
  rw [List.countP_eq_zero]
  intro a ha
  rw [List.eq_of_mem_replicate ha]
  simp

theorem runA_counters (ls : ℕ → List ℚ) (cs : List ACall) (s : Attacker) :
    (runA ls s cs).attempts = s.attempts + genCount cs ∧
    (runA ls s cs).failures = s.failures + failCount cs ∧
    (runA ls s cs).near_misses = s.near_misses + nmCount cs := by
  induction cs generalizing s with
  | nil => simp [runA, genCount, failCount, nmCount]
  | cons c cs ih =>
      have step : runA ls s (c :: cs) = runA ls (stepA ls s c) cs := rfl
      rw [step]
      rcases ih (stepA ls s c) with ⟨h1, h2, h3⟩
      rw [h1, h2, h3]
      unfold genCount failCount nmCount at *
      cases c <;>
        simp [stepA, random_tensor, record_failure, record_near_miss, List.countP_cons] <;>
        omega

theorem genOutputs_rng_eq (ls : ℕ → List ℚ) (calls : List (List ℕ × String)) :
    ∀ a1 a2 : Attacker, a1.rng = a2.rng →
      genOutputs ls calls a1 = genOutputs ls calls a2 := by
  induction calls with
  | nil => intro a1 a2 _; rfl
  | cons c cs ih =>
      intro a1 a2 h
      show (random_tensor ls a1 c.1 c.2).1 :: genOutputs ls cs (random_tensor ls a1 c.1 c.2).2 =
        (random_tensor ls a2 c.1 c.2).1 :: genOutputs ls cs (random_tensor ls a2 c.1 c.2).2
      unfold random_tensor
      rw [h]
      have tail : ∀ x y : Attacker, x.rng = y.rng → genOutputs ls cs x = genOutputs ls cs y := ih
      exact congrArg₂ List.cons rfl (tail _ _ rfl)

/-- C1: after any sequence of `record` calls, `get_level target` is the
`level` argument of the most recent call with `passed = true` for that
target, and `"L0"` when no passing call for the target exists (targets never
recorded included); a `passed = false` call leaves every `get_level` value
unchanged; a later passing call overwrites the current level with its own
level unconditionally (a lower level included). -/
theorem claim_C1_get_level_last_passing :
    (∀ (cs : List RecCall) (target : String),
        get_level (runTracker emptyTracker cs) target =
          (lastPassingLevel cs target).getD "L0") ∧
    (∀ (t : Tracker) (target2 target level challenger : String),
        get_level (record t target2 level challenger false) target = get_level t target) ∧
    (∀ (t : Tracker) (target level challenger : String),
        get_level (record t target level challenger true) target = level) := by
  refine ⟨fun cs target => ?_, fun t t2 tg l c => ?_, fun t tg l c => ?_⟩
  · rw [get_level_runTracker]
    rfl
  · rw [get_level_record]
    rw [if_neg (by simp)]
  · rw [get_level_record]
    rw [if_pos ⟨rfl, rfl⟩]

/-- C2 counterexample: on a zero vector (norm exactly zero) the
phase-invariant check does not fail with the `ZeroNorm` kind — the code has
no zero-norm guard (it normalizes unconditionally; in exact arithmetic the
check even succeeds here), while the spec-modelled check returns
`ZeroNorm`. -/
theorem claim_C2_counterexample :
    vnormSq (Artifact.mk [1] [Qc.zero]).data = 0 ∧
    assert_eigenvector_equivalent ⟨[1], [Qc.zero]⟩ ⟨[1], [Qc.zero]⟩
        DEFAULT_RTOL DEFAULT_ATOL = Except.ok () ∧
    specPhaseInvariant ⟨[1], [Qc.zero]⟩ ⟨[1], [Qc.zero]⟩
        DEFAULT_RTOL DEFAULT_ATOL = Except.error CheckErr.zeroNorm := by
  have h0 : vnormSq (Artifact.mk [1] [Qc.zero]).data = 0 := by
    norm_num [vnormSq, Qc.normSq, Qc.zero]
  refine ⟨h0, ?_, ?_⟩
  · show assert_close (normProjector [Qc.zero]) (normProjector [Qc.zero])
        DEFAULT_RTOL DEFAULT_ATOL = Except.ok ()
    unfold assert_close
    rw [allclose_self _ _ _ (by norm_num [DEFAULT_RTOL]) (by norm_num [DEFAULT_ATOL])]
  · unfold specPhaseInvariant
    rw [if_pos (Or.inl h0)]

/-- C2 (amended): the gauge check never fails with the distinct `ZeroNorm`
kind (no zero-norm guard exists in the code); on inputs whose norms are
nonzero it agrees with the spec's description — normalize both vectors,
form the projectors `v ⊗ conj v`, compare them with the elementwise
closeness check. -/
theorem claim_C2_phase_invariant_check (va vb : Artifact) (rtol atol : ℚ)
    (ha : vnormSq va.data ≠ 0) (hb : vnormSq vb.data ≠ 0) :
    assert_eigenvector_equivalent va vb rtol atol = specPhaseInvariant va vb rtol atol ∧
    assert_eigenvector_equivalent va vb rtol atol ≠ Except.error CheckErr.zeroNorm := by
  constructor
  · unfold specPhaseInvariant
    rw [if_neg (by tauto)]
    rfl
  · exact assert_close_ne_zeroNorm _ _ _ _

theorem claim_C2_witness :
    vnormSq (Artifact.mk [1] [⟨1, 0⟩]).data ≠ 0 ∧
    assert_eigenvector_equivalent ⟨[1], [⟨1, 0⟩]⟩ ⟨[1], [⟨1, 0⟩]⟩
        DEFAULT_RTOL DEFAULT_ATOL =
      specPhaseInvariant ⟨[1], [⟨1, 0⟩]⟩ ⟨[1], [⟨1, 0⟩]⟩ DEFAULT_RTOL DEFAULT_ATOL :=
  ⟨by norm_num [vnormSq, Qc.normSq],
   (claim_C2_phase_invariant_check ⟨[1], [⟨1, 0⟩]⟩ ⟨[1], [⟨1, 0⟩]⟩ DEFAULT_RTOL DEFAULT_ATOL
      (by norm_num [vnormSq, Qc.normSq]) (by norm_num [vnormSq, Qc.normSq])).1⟩

/-- C3 counterexample: for shape `(19,)` the sparse strategy sets
`max(1, int(19 * 0.1)) = 1` position (`int` truncates), so the generated
artifact has exactly 1 nonzero entry, while the claim's formula
`max(1, round(0.1 * 19)) = 2` demands 2. -/
theorem claim_C3_counterexample :
    ((random_tensor (fun _ => []) ⟨⟨fun _ => 1, 0⟩, 0, 0, 0⟩ [19] "sparse").1.map
        (fun a => countNZ a.data)) = Except.ok 1 ∧
    (max 1 (round (((([19] : List ℕ).prod : ℕ) : ℚ) * (1 / 10))) : ℤ) = 2 := by
  constructor
  · rfl
  · have h19 : ((([19] : List ℕ).prod : ℕ) : ℚ) = 19 := by norm_num
    rw [h19]
    have hr : round ((19 : ℚ) * (1 / 10)) = 2 := by
      rw [round_eq, Int.floor_eq_iff]
      norm_num
    rw [hr]
    norm_num

/-- C3 (amended): for every shape with at least one element, the sparse
strategy returns a zero-filled artifact of that shape with exactly
`max(1, int(0.1 * total_elements))` positions (truncating division) set to
standard-normal draws at distinct flat indices; whenever the draws are
nonzero the artifact has exactly that many nonzero entries — for shape
`(100,)`, exactly 10. -/
theorem claim_C3_sparse_count (ls : ℕ → List ℚ) (s : Attacker) (shape : List ℕ)
    (ht : 1 ≤ shape.prod) (hg : ∀ k, s.rng.gen k ≠ 0) :
    ∃ a : Artifact, (random_tensor ls s shape "sparse").1 = Except.ok a ∧
      a.shape = shape ∧ countNZ a.data = max 1 (shape.prod / 10) := by
  have hnnz : max 1 (shape.prod / 10) ≤ shape.prod := by
    have hd : shape.prod / 10 ≤ shape.prod := Nat.div_le_self _ _
    omega
  have hpos : 0 < shape.prod := ht
  unfold random_tensor rtData
  rw [if_neg (by decide : ¬ ("sparse" = "normal")),
    if_neg (by decide : ¬ ("sparse" = "boundary")),
    if_pos rfl, if_neg (by omega : ¬ (shape.prod < max 1 (shape.prod / 10)))]
  refine ⟨_, rfl, rfl, ?_⟩
  rcases choiceNoReplace_spec shape.prod (max 1 (shape.prod / 10)) s.rng hnnz hpos with
    ⟨hlen, hbound, hnd⟩
  rw [countNZ_putFlat _ _ _ ?hl hnd ?hb ?hz ?hv]
  · rw [countNZ_replicate_zero, hlen]
    omega
  case hl =>
    rw [hlen, standardNormal_length]
  case hb =>
    intro i hi
    rw [List.length_replicate]
    exact hbound i hi
  case hz =>
    intro i hi _
    simp
  case hv =>
    intro v hv
    rcases standardNormal_mem _ _ v hv with ⟨k, hk⟩
    have hgen : (choiceNoReplace shape.prod (max 1 (shape.prod / 10)) s.rng).2.gen =
        s.rng.gen := rfl
    rw [hk, hgen]
    exact hg k

theorem claim_C3_witness :
    (∃ a : Artifact,
        (random_tensor (fun _ => []) ⟨⟨fun k => (k : ℚ) + 1, 0⟩, 0, 0, 0⟩ [100] "sparse").1 =
          Except.ok a ∧
        a.shape = [100] ∧ countNZ a.data = max 1 (([100] : List ℕ).prod / 10)) ∧
    max 1 (([100] : List ℕ).prod / 10) = 10 :=
  ⟨claim_C3_sparse_count (fun _ => []) ⟨⟨fun k => (k : ℚ) + 1, 0⟩, 0, 0, 0⟩ [100]
      (by decide) (fun k => Nat.cast_add_one_ne_zero k),
   by decide⟩

/-- C4 counterexample: `torch.allclose` broadcasts, so artifacts of
different shapes `(1,)` and `(2,)` are value-compared rather than rejected:
with equal values the check succeeds, and with differing values it fails
with the `ValueMismatch` kind — both contradicting "different shapes fail
with `ShapeMismatch`, never `ValueMismatch`". -/
theorem claim_C4_counterexample :
    (Artifact.mk [1] [⟨5, 0⟩]).shape ≠ (Artifact.mk [2] [⟨5, 0⟩, ⟨5, 0⟩]).shape ∧
    assert_close ⟨[1], [⟨5, 0⟩]⟩ ⟨[2], [⟨5, 0⟩, ⟨5, 0⟩]⟩ DEFAULT_RTOL DEFAULT_ATOL =
      Except.ok () ∧
    assert_close ⟨[1], [⟨0, 0⟩]⟩ ⟨[2], [⟨1, 0⟩, ⟨0, 0⟩]⟩ DEFAULT_RTOL DEFAULT_ATOL =
      Except.error CheckErr.valueMismatch := by
  refine ⟨by decide, ?_, ?_⟩
  · have hc : closeElem ⟨5, 0⟩ ⟨5, 0⟩ DEFAULT_RTOL DEFAULT_ATOL = true :=
      closeElem_self _ _ _ (by norm_num [DEFAULT_RTOL]) (by norm_num [DEFAULT_ATOL])
    have hall : allclose ⟨[1], [⟨5, 0⟩]⟩ ⟨[2], [⟨5, 0⟩, ⟨5, 0⟩]⟩ DEFAULT_RTOL DEFAULT_ATOL =
        some (closeElem ⟨5, 0⟩ ⟨5, 0⟩ DEFAULT_RTOL DEFAULT_ATOL &&
          (closeElem ⟨5, 0⟩ ⟨5, 0⟩ DEFAULT_RTOL DEFAULT_ATOL && true)) := rfl
    rw [hc] at hall
    simp only [Bool.and_true, Bool.true_and] at hall
    unfold assert_close
    rw [hall]
  · have hfalse : closeElem ⟨0, 0⟩ ⟨1, 0⟩ DEFAULT_RTOL DEFAULT_ATOL = false := by
      show sqrtLeB ((Qc.sub ⟨0, 0⟩ ⟨1, 0⟩).normSq) DEFAULT_ATOL DEFAULT_RTOL
        (Qc.normSq ⟨1, 0⟩) = false
      have e1 : (Qc.sub ⟨0, 0⟩ ⟨1, 0⟩).normSq = 1 := by norm_num [Qc.sub, Qc.normSq]
      have e2 : Qc.normSq ⟨1, 0⟩ = 1 := by norm_num [Qc.normSq]
      rw [e1, e2]
      refine sqrtLeB_false_of 1 DEFAULT_ATOL DEFAULT_RTOL 1 ?_ ?_
      · exact mulSqrtLe_true_of_nonpos _ _ _ (by norm_num [DEFAULT_ATOL])
          (by norm_num [DEFAULT_RTOL])
      · refine mulSqrtLe_false_of_pos _ _ _ ?_ ?_
        · norm_num [DEFAULT_ATOL, DEFAULT_RTOL]
        · norm_num [DEFAULT_ATOL, DEFAULT_RTOL]
    have hc2 : closeElem ⟨0, 0⟩ ⟨0, 0⟩ DEFAULT_RTOL DEFAULT_ATOL = true :=
      closeElem_self _ _ _ (by norm_num [DEFAULT_RTOL]) (by norm_num [DEFAULT_ATOL])
    have hall2 : allclose ⟨[1], [⟨0, 0⟩]⟩ ⟨[2], [⟨1, 0⟩, ⟨0, 0⟩]⟩ DEFAULT_RTOL DEFAULT_ATOL =
        some (closeElem ⟨0, 0⟩ ⟨1, 0⟩ DEFAULT_RTOL DEFAULT_ATOL &&
          (closeElem ⟨0, 0⟩ ⟨0, 0⟩ DEFAULT_RTOL DEFAULT_ATOL && true)) := rfl
    rw [hfalse, hc2] at hall2
    simp only [Bool.and_true, Bool.false_and] at hall2
    unfold assert_close
    rw [hall2]

/-- C4 (amended): the distinct shape-failure kind (the RuntimeError from
`torch.allclose`) occurs exactly when the two shapes are not broadcastable;
shapes need only be broadcast-compatible — not exactly equal — for the value
comparison to take place, and on any broadcast-compatible pair the result is
never the shape-failure kind. -/
theorem claim_C4_shape_mismatch (a b : Artifact) (rtol atol : ℚ) :
    (broadcastShapes a.shape b.shape = none →
      assert_close a b rtol atol = Except.error CheckErr.shapeMismatch) ∧
    (∀ bs : List ℕ, broadcastShapes a.shape b.shape = some bs →
      assert_close a b rtol atol ≠ Except.error CheckErr.shapeMismatch) := by
  constructor
  · intro h
    unfold assert_close allclose
    rw [h]
  · intro bs h
    unfold assert_close allclose
    rw [h]
    show (match some ((allIdx bs).all
        (fun idx => closeElem (elemAt a bs idx) (elemAt b bs idx) rtol atol)) with
      | none => Except.error CheckErr.shapeMismatch
      | some true => Except.ok ()
      | some false => Except.error CheckErr.valueMismatch) ≠
        Except.error CheckErr.shapeMismatch
    cases hall : (allIdx bs).all
        (fun idx => closeElem (elemAt a bs idx) (elemAt b bs idx) rtol atol) with
    | false =>
        intro hc
        exact CheckErr.noConfusion (Except.error.inj hc)
    | true =>
        intro hc
        exact Except.noConfusion hc

theorem claim_C4_witness :
    assert_close ⟨[2], [⟨1, 0⟩, ⟨1, 0⟩]⟩ ⟨[3], [⟨1, 0⟩, ⟨1, 0⟩, ⟨1, 0⟩]⟩
        DEFAULT_RTOL DEFAULT_ATOL = Except.error CheckErr.shapeMismatch ∧
    assert_close ⟨[2], [⟨1, 0⟩, ⟨1, 0⟩]⟩ ⟨[2], [⟨1, 0⟩, ⟨1, 0⟩]⟩
        DEFAULT_RTOL DEFAULT_ATOL ≠ Except.error CheckErr.shapeMismatch :=
  ⟨(claim_C4_shape_mismatch ⟨[2], [⟨1, 0⟩, ⟨1, 0⟩]⟩ ⟨[3], [⟨1, 0⟩, ⟨1, 0⟩, ⟨1, 0⟩]⟩
      DEFAULT_RTOL DEFAULT_ATOL).1 (by decide),
   (claim_C4_shape_mismatch ⟨[2], [⟨1, 0⟩, ⟨1, 0⟩]⟩ ⟨[2], [⟨1, 0⟩, ⟨1, 0⟩]⟩
      DEFAULT_RTOL DEFAULT_ATOL).2 [2] (by decide)⟩

/-- C5 counterexample: a fresh session followed by one `record_failure` call
has `attempts = 0 < 1 = failures`, refuting "`attempts >= failures` holds
after the sequence" for arbitrary call sequences. -/
theorem claim_C5_counterexample :
    (runA (fun _ => []) (mkAttacker (fun _ _ => 0) 42) [ACall.recFail]).attempts <
      (runA (fun _ => []) (mkAttacker (fun _ _ => 0) 42) [ACall.recFail]).failures := by
  decide

/-- C5 (amended): all three counters are non-decreasing across any call
sequence, every `generate` call increments `attempts` by exactly one
regardless of strategy, and from a fresh session `attempts ≥ failures` holds
after every sequence in which `record_failure` calls do not outnumber
`generate` calls (the code puts no constraint on a driver that records
failures without generating, so the unconditional form fails). -/
theorem claim_C5_counters (ls : ℕ → List ℚ) (cs : List ACall) :
    (∀ s : Attacker,
        s.attempts ≤ (runA ls s cs).attempts ∧
        s.failures ≤ (runA ls s cs).failures ∧
        s.near_misses ≤ (runA ls s cs).near_misses) ∧
    (∀ (s : Attacker) (shape : List ℕ) (strategy : String),
        ((random_tensor ls s shape strategy).2).attempts = s.attempts + 1) ∧
    (∀ (gen : ℕ → ℕ → ℚ) (seed : ℕ), failCount cs ≤ genCount cs →
        (runA ls (mkAttacker gen seed) cs).failures ≤
          (runA ls (mkAttacker gen seed) cs).attempts) := by
  refine ⟨fun s => ?_, fun s shape strategy => rfl, fun gen seed h => ?_⟩
  · rcases runA_counters ls cs s with ⟨h1, h2, h3⟩
    omega
  · rcases runA_counters ls cs (mkAttacker gen seed) with ⟨h1, h2, h3⟩
    have ha : (mkAttacker gen seed).attempts = 0 := rfl
    have hf : (mkAttacker gen seed).failures = 0 := rfl
    omega

theorem claim_C5_witness :
    (runA (fun _ => []) (mkAttacker (fun _ _ => 0) 42)
        [ACall.genT [2] "normal", ACall.recFail]).failures ≤
      (runA (fun _ => []) (mkAttacker (fun _ _ => 0) 42)
        [ACall.genT [2] "normal", ACall.recFail]).attempts :=
  (claim_C5_counters (fun _ => []) [ACall.genT [2] "normal", ACall.recFail]).2.2
    (fun _ _ => 0) 42 (by decide)

/-- C6: `report` returns exactly the counters, the success rate
`(attempts - failures) / max(1, attempts)`, and the conclusion `"PASS"` iff
`failures = 0`; it reads the state without returning a modified one (its
type `Attacker → AReport` is the purity). -/
theorem claim_C6_report (s : Attacker) :
    (report s).total_attempts = s.attempts ∧
    (report s).failures = s.failures ∧
    (report s).near_misses = s.near_misses ∧
    (report s).success_rate =
      ((s.attempts : ℚ) - (s.failures : ℚ)) / ((max 1 s.attempts : ℕ) : ℚ) ∧
    ((report s).conclusion = "PASS" ↔ s.failures = 0) := by
  refine ⟨rfl, rfl, rfl, rfl, ?_⟩
  unfold report
  by_cases h : s.failures = 0
  · rw [if_pos h]
    simp [h]
  · rw [if_neg h]
    constructor
    · intro hc
      have hc2 : "FAIL" = "PASS" := hc
      exact absurd hc2 (by decide)
    · intro hc
      exact absurd hc h

/-- C7 counterexample: on the non-square shape `(2,)` the `ill_conditioned`
strategy does not return what `normal` would from the same random-source
state: the fallback is a real-only draw (imaginary part zero, one draw
block), while `normal` draws separate real and imaginary blocks. -/
theorem claim_C7_counterexample :
    (random_tensor (fun _ => [])
        (mkAttacker (fun _ n => if 2 ≤ n then (1 : ℚ) else 0) 0) [2] "ill_conditioned").1 ≠
      (random_tensor (fun _ => [])
        (mkAttacker (fun _ n => if 2 ≤ n then (1 : ℚ) else 0) 0) [2] "normal").1 := by
  have h1 : (random_tensor (fun _ => [])
      (mkAttacker (fun _ n => if 2 ≤ n then (1 : ℚ) else 0) 0) [2] "ill_conditioned").1 =
      Except.ok (Artifact.mk [2] [⟨0, 0⟩, ⟨0, 0⟩]) := rfl
  have h2 : (random_tensor (fun _ => [])
      (mkAttacker (fun _ n => if 2 ≤ n then (1 : ℚ) else 0) 0) [2] "normal").1 =
      Except.ok (Artifact.mk [2] [⟨0, 1⟩, ⟨0, 1⟩]) := rfl
  rw [h1, h2]
  intro hc
  have hd : (Artifact.mk [2] [⟨0, 0⟩, ⟨0, 0⟩] : Artifact) = Artifact.mk [2] [⟨0, 1⟩, ⟨0, 1⟩] :=
    Except.ok.inj hc
  have him : (0 : ℚ) = 1 := congrArg (fun a => (a.data.getD 0 Qc.zero).im) hd
  norm_num at him

/-- C7 (amended): on every non-square (or non-2D) shape, `ill_conditioned`
falls back to the plain real-only standard-normal path — byte-for-byte the
same behaviour as an unrecognized strategy string (the final `else` of the
dispatch), producing an artifact whose imaginary part is identically zero —
not to the complex `normal` strategy. -/
theorem claim_C7_ill_conditioned_fallback (ls : ℕ → List ℚ) (s : Attacker)
    (shape : List ℕ) (h : isSquare2 shape = false) :
    random_tensor ls s shape "ill_conditioned" = random_tensor ls s shape "" ∧
    (∀ a : Artifact, (random_tensor ls s shape "ill_conditioned").1 = Except.ok a →
        a.shape = shape ∧ ∀ q ∈ a.data, q.im = 0) := by
  have hcode : random_tensor ls s shape "ill_conditioned" = random_tensor ls s shape "" := by
    unfold random_tensor rtData
    rw [if_neg (by decide : ¬ ("ill_conditioned" = "normal")),
      if_neg (by decide : ¬ ("ill_conditioned" = "boundary")),
      if_neg (by decide : ¬ ("ill_conditioned" = "sparse")),
      if_pos rfl,
      if_neg (by decide : ¬ ("" = "normal")),
      if_neg (by decide : ¬ ("" = "boundary")),
      if_neg (by decide : ¬ ("" = "sparse")),
      if_neg (by decide : ¬ ("" = "ill_conditioned"))]
    rw [if_neg (by simp [h] : ¬ (isSquare2 shape = true))]
  refine ⟨hcode, fun a ha => ?_⟩
  rw [hcode] at ha
  have hres : (random_tensor ls s shape "").1 =
      Except.ok (Artifact.mk shape
        (((standardNormal shape.prod s.rng).1).map (fun x => ⟨x, 0⟩))) := by
    unfold random_tensor rtData
    rw [if_neg (by decide : ¬ ("" = "normal")),
      if_neg (by decide : ¬ ("" = "boundary")),
      if_neg (by decide : ¬ ("" = "sparse")),
      if_neg (by decide : ¬ ("" = "ill_conditioned"))]
  rw [hres] at ha
  cases ha
  refine ⟨rfl, fun q hq => ?_⟩
  rcases List.mem_map.mp hq with ⟨x, _, hx⟩
  rw [← hx]

theorem claim_C7_witness :
    random_tensor (fun _ => []) (mkAttacker (fun _ n => (n : ℚ)) 3) [2] "ill_conditioned" =
      random_tensor (fun _ => []) (mkAttacker (fun _ n => (n : ℚ)) 3) [2] "" :=
  (claim_C7_ill_conditioned_fallback (fun _ => [])
      (mkAttacker (fun _ n => (n : ℚ)) 3) [2] (by decide)).1

/-- C8: two sessions whose random sources were seeded identically produce
identical artifact sequences for every identical sequence of `generate`
calls — even when their counters differ, since generation reads only the
random source. -/
theorem claim_C8_seed_reproducibility (ls : ℕ → List ℚ) (gen : ℕ → ℕ → ℚ) (seed : ℕ)
    (a1 a2 : Attacker) (h1 : a1.rng = (mkAttacker gen seed).rng)
    (h2 : a2.rng = (mkAttacker gen seed).rng) (calls : List (List ℕ × String)) :
    genOutputs ls calls a1 = genOutputs ls calls a2 :=
  genOutputs_rng_eq ls calls a1 a2 (h1.trans h2.symm)

theorem claim_C8_witness :
    genOutputs (fun _ => []) [([2], "normal")] (mkAttacker (fun _ n => (n : ℚ)) 7) =
      genOutputs (fun _ => []) [([2], "normal")]
        (record_failure (mkAttacker (fun _ n => (n : ℚ)) 7)) :=
  claim_C8_seed_reproducibility (fun _ => []) (fun _ n => (n : ℚ)) 7
    (mkAttacker (fun _ n => (n : ℚ)) 7)
    (record_failure (mkAttacker (fun _ n => (n : ℚ)) 7)) rfl rfl [([2], "normal")]

/-- C9: the closeness check is reflexive — for every artifact and every
non-negative tolerance pair, `assert_close a a rtol atol` succeeds. -/
theorem claim_C9_close_reflexive (a : Artifact) (rtol atol : ℚ)
    (hr : 0 ≤ rtol) (ha : 0 ≤ atol) :
    assert_close a a rtol atol = Except.ok () := by
  unfold assert_close
  rw [allclose_self a rtol atol hr ha]

theorem claim_C9_witness :
    assert_close ⟨[2], [⟨1, 2⟩, ⟨3, -1⟩]⟩ ⟨[2], [⟨1, 2⟩, ⟨3, -1⟩]⟩
        DEFAULT_RTOL DEFAULT_ATOL = Except.ok () :=
  claim_C9_close_reflexive ⟨[2], [⟨1, 2⟩, ⟨3, -1⟩]⟩ DEFAULT_RTOL DEFAULT_ATOL
    (by norm_num [DEFAULT_RTOL]) (by norm_num [DEFAULT_ATOL])

/-- C10: an unrecognized strategy string raises no error — the final `else`
silently returns real standard-normal draws cast to complex (imaginary part
identically zero) and the `attempts` counter is still incremented by one. -/
theorem claim_C10_unknown_strategy (ls : ℕ → List ℚ) (s : Attacker) (shape : List ℕ)
    (strategy : String) (h1 : strategy ≠ "normal") (h2 : strategy ≠ "boundary")
    (h3 : strategy ≠ "sparse") (h4 : strategy ≠ "ill_conditioned") :
    (random_tensor ls s shape strategy).1 =
      Except.ok (Artifact.mk shape
        (((standardNormal shape.prod s.rng).1).map (fun x => ⟨x, 0⟩))) ∧
    ((random_tensor ls s shape strategy).2).attempts = s.attempts + 1 ∧
    (∀ a : Artifact, (random_tensor ls s shape strategy).1 = Except.ok a →
        a.shape = shape ∧ ∀ q ∈ a.data, q.im = 0) := by
  have hres : (random_tensor ls s shape strategy).1 =
      Except.ok (Artifact.mk shape
        (((standardNormal shape.prod s.rng).1).map (fun x => ⟨x, 0⟩))) := by
    unfold random_tensor rtData
    rw [if_neg h1, if_neg h2, if_neg h3, if_neg h4]
  refine ⟨hres, rfl, fun a ha => ?_⟩
  rw [hres] at ha
  cases ha
  refine ⟨rfl, fun q hq => ?_⟩
  rcases List.mem_map.mp hq with ⟨x, _, hx⟩
  rw [← hx]

theorem claim_C10_witness :
    (random_tensor (fun _ => []) (mkAttacker (fun _ n => (n : ℚ)) 0) [2] "gaussian").1 =
      Except.ok (Artifact.mk [2]
        (((standardNormal ([2] : List ℕ).prod (mkAttacker (fun _ n => (n : ℚ)) 0).rng).1).map
          (fun x => ⟨x, 0⟩))) ∧
    ((random_tensor (fun _ => []) (mkAttacker (fun _ n => (n : ℚ)) 0) [2] "gaussian").2).attempts =
      (mkAttacker (fun _ n => (n : ℚ)) 0).attempts + 1 :=
  ⟨(claim_C10_unknown_strategy (fun _ => []) (mkAttacker (fun _ n => (n : ℚ)) 0) [2] "gaussian"
      (by decide) (by decide) (by decide) (by decide)).1,
   (claim_C10_unknown_strategy (fun _ => []) (mkAttacker (fun _ n => (n : ℚ)) 0) [2] "gaussian"
      (by decide) (by decide) (by decide) (by decide)).2.1⟩

end Conftest
